import Mathlib

/-!
Shallow embedding of the debaser migration tool (TypeScript sources under
src/) into Lean 4, covering the heuristic anonymizer, the type normalizer,
the per-table migration pipeline (DataProcessor), the connectors' insert
statement construction, and the configuration batch-size plumbing.

JavaScript values flowing through rows are modelled by the closed inductive
type Value below; a JS runtime TypeError (calling a string method on a
non-string) is modelled by Option, with none standing for the thrown error.
JS string operations on the ASCII inputs of this program are modelled on
List Char: value.split(c) is splitOnChar, s.toLowerCase() is per-character
Char.toLower, and a regex test of the form /lit/i.test(s) (every pattern in
the source is a plain lowercase literal) is substring containment in the
lowercased string.
-/

/-- Engine-agnostic row value: null, undefined, string, integer or boolean
(the constructors the claims exercise). -/
inductive Value where
  | vnull
  | vundef
  | vstr (s : String)
  | vint (n : Int)
  | vbool (b : Bool)
deriving DecidableEq

/-- A row is a JS object: an ordered association list from field name to
value (DataProcessor.processRow builds rows key by key in field order). -/
abbrev Row := List (String × Value)

/-- JS property access row[name]: the bound value, or undefined when the key
is absent. -/
def rowGet (row : Row) (name : String) : Value :=
  match row.find? (fun p => p.1 == name) with
  | some p => p.2
  | none => Value.vundef

/-- needle is a leading segment of hay. -/
def listStarts : List Char → List Char → Bool
  | [], _ => true
  | _ :: _, [] => false
  | a :: as, b :: bs => a == b && listStarts as bs

/-- needle occurs somewhere inside hay (JS String.prototype.includes / a
regex test for a literal pattern). -/
def occursIn (needle : List Char) : List Char → Bool
  | [] => needle.isEmpty
  | c :: t => listStarts needle (c :: t) || occursIn needle t

/-- JS test of the case-insensitive regex for a lowercase literal pattern:
/pat/i.test(fieldName). -/
def matchesCI (fieldName : String) (pat : String) : Bool :=
  occursIn pat.toList (fieldName.toList.map Char.toLower)

/-- JS value.split(sep) for a one-character separator: the list of (possibly
empty) segments between occurrences of the separator. -/
def splitOnChar (c : Char) : List Char → List (List Char)
  | [] => [[]]
  | x :: xs =>
    if x == c then [] :: splitOnChar c xs
    else
      match splitOnChar c xs with
      | [] => [[x]]
      | h :: t => (x :: h) :: t

/-- JS Array.prototype.join for a one-character separator. -/
def joinChar (c : Char) : List (List Char) → List Char
  | [] => []
  | [w] => w
  | w :: ws => w ++ c :: joinChar c ws

/-- JS '*'.repeat(n) and friends. -/
def repeatChar (c : Char) (n : Nat) : String :=
  String.mk (List.replicate n c)

/-- HeuristicAnonymizer.sensitivePatterns (src/src/streams/processor.ts):
the literal bodies of the 28 case-insensitive regexes, in source order. -/
def sensitivePatterns : List String :=
  ["email", "mail", "e_mail",
   "name", "first_name", "last_name", "full_name", "username", "user_name",
   "phone", "telephone", "mobile", "cell",
   "address", "street", "city", "zip", "postal",
   "ssn", "social_security", "passport", "id_number", "credit_card", "card_number",
   "password", "secret", "token", "key"]

/-- HeuristicAnonymizer.shouldAnonymize: a sensitive-looking name AND the
normalized type is the string type. -/
def shouldAnonymize (fieldName fieldType : String) : Bool :=
  sensitivePatterns.any (fun p => matchesCI fieldName p) && fieldType == "string"

/-- HeuristicAnonymizer.anonymizeEmail. JS destructures
[localPart, domain] = value.split on the at sign; !domain is true when there
is no second segment or the second segment is empty. -/
def anonymizeEmail (value : String) : String :=
  match splitOnChar (Char.ofNat 64) value.toList with
  | localPart :: domain :: _ =>
    if domain.isEmpty then "anonymous@example.com"
    else
      (if localPart.length > 2 then
        String.mk (localPart.take 2) ++ repeatChar (Char.ofNat 42) (localPart.length - 2)
      else "**")
      ++ "@" ++ String.mk domain
  | _ => "anonymous@example.com"

/-- Per-word masking used by HeuristicAnonymizer.anonymizeName. -/
def maskWord (word : List Char) : List Char :=
  if word.length ≤ 2 then List.replicate word.length (Char.ofNat 42)
  else word.take 1 ++ List.replicate (word.length - 1) (Char.ofNat 42)

/-- HeuristicAnonymizer.anonymizeName: split on spaces, mask each word, rejoin. -/
def anonymizeName (value : String) : String :=
  String.mk (joinChar (Char.ofNat 32) ((splitOnChar (Char.ofNat 32) value.toList).map maskWord))

/-- HeuristicAnonymizer.anonymizePhone: strip non-digits; fewer than 4 digits
gives a fixed placeholder, otherwise a fixed prefix and the last 4 digits. -/
def anonymizePhone (value : String) : String :=
  let digits := value.toList.filter Char.isDigit
  if digits.length < 4 then "***-***-****"
  else "***-***-" ++ String.mk ((digits.reverse.take 4).reverse)

/-- HeuristicAnonymizer.anonymizeAddress: with more than two words, fully
mask the first two words and keep the rest; otherwise a fixed placeholder. -/
def anonymizeAddress (value : String) : String :=
  let words := splitOnChar (Char.ofNat 32) value.toList
  if words.length ≤ 2 then "*** ***"
  else
    match words with
    | w1 :: w2 :: rest =>
      String.mk (joinChar (Char.ofNat 32)
        (List.replicate w1.length (Char.ofNat 42) :: List.replicate w2.length (Char.ofNat 42) :: rest))
    | _ => "*** ***"

/-- HeuristicAnonymizer.anonymizePassword: a fixed 8-character mask,
independent of the input. -/
def anonymizePassword (_value : String) : String :=
  repeatChar (Char.ofNat 42) 8

/-- HeuristicAnonymizer.anonymizeGeneric: keep first and last character,
mask the middle; fully mask values of length at most 3. -/
def anonymizeGeneric (value : String) : String :=
  if value.length ≤ 3 then repeatChar (Char.ofNat 42) value.length
  else
    String.mk (value.toList.take 1)
      ++ repeatChar (Char.ofNat 42) (value.length - 2)
      ++ String.mk ((value.toList.reverse.take 1).reverse)

/-- The transform dispatch of HeuristicAnonymizer.anonymizeField for a string
value, in source order: email, name, phone, address, password/secret, generic. -/
def anonymizeString (fieldName : String) (value : String) : String :=
  if matchesCI fieldName "email" then anonymizeEmail value
  else if matchesCI fieldName "name" then anonymizeName value
  else if matchesCI fieldName "phone" then anonymizePhone value
  else if matchesCI fieldName "address" then anonymizeAddress value
  else if matchesCI fieldName "password" || matchesCI fieldName "secret" then anonymizePassword value
  else anonymizeGeneric value

/-- The transform dispatch applied to a non-string, non-null, non-undefined
value: every transform except anonymizePassword calls a string method on the
value and throws (none); the password/secret branch ignores the value and
returns the fixed mask. -/
def anonymizeNonString (fieldName : String) : Option Value :=
  if matchesCI fieldName "email" then none
  else if matchesCI fieldName "name" then none
  else if matchesCI fieldName "phone" then none
  else if matchesCI fieldName "address" then none
  else if matchesCI fieldName "password" || matchesCI fieldName "secret" then
    some (Value.vstr (repeatChar (Char.ofNat 42) 8))
  else none

/-- HeuristicAnonymizer.anonymizeField: null/undefined pass through first,
then the internal shouldAnonymize gate returns the value unchanged when
false, then the transform dispatch runs. none models a thrown TypeError. -/
def anonymizeField (fieldName : String) (value : Value) (fieldType : String) : Option Value :=
  match value with
  | Value.vnull => some Value.vnull
  | Value.vundef => some Value.vundef
  | v =>
    if shouldAnonymize fieldName fieldType then
      match v with
      | Value.vstr s => some (Value.vstr (anonymizeString fieldName s))
      | _ => anonymizeNonString fieldName
    else some v

/-- BaseConnector.normalizeFieldType (src/src/connectors/base.ts): lowercase
the native type, then first-match-wins substring rules, with string as the
fallback. -/
def normalizeFieldType (dbType : String) : String :=
  let type := dbType.toList.map Char.toLower
  if occursIn "int".toList type || occursIn "serial".toList type then "integer"
  else if occursIn "varchar".toList type || occursIn "text".toList type || occursIn "char".toList type then "string"
  else if occursIn "decimal".toList type || occursIn "numeric".toList type || occursIn "float".toList type || occursIn "double".toList type then "number"
  else if occursIn "date".toList type || occursIn "time".toList type || occursIn "timestamp".toList type then "date"
  else if occursIn "bool".toList type then "boolean"
  else if occursIn "json".toList type then "json"
  else if occursIn "blob".toList type || occursIn "bytea".toList type then "binary"
  else "string"

/-- The 16 substrings tested by normalizeFieldType's rules, in rule order. -/
def typeRulePatterns : List String :=
  ["int", "serial", "varchar", "text", "char", "decimal", "numeric", "float",
   "double", "date", "time", "timestamp", "bool", "json", "blob", "bytea"]

/-- FieldInfo (src/src/types/index.ts). -/
structure FieldInfo where
  name : String
  type : String
  nullable : Bool
  defaultValue : Option Value
deriving DecidableEq

/-- TableInfo (src/src/types/index.ts): ordered fields plus an optional
best-effort row count. -/
structure TableInfo where
  name : String
  fields : List FieldInfo
  rowCount : Option Nat
deriving DecidableEq

/-- One invocation of the progress callback: (table, processed, total). -/
structure ProgressEvent where
  table : String
  processed : Nat
  total : Nat
deriving DecidableEq

/-- The observable effects of DataProcessor.processTable on the destination
connector: the TableInfo passed to createTable, the batches passed to
insertData in order, and the progress callback invocations in order. -/
structure TableTrace where
  created : TableInfo
  inserts : List (List Row)
  events : List ProgressEvent
deriving DecidableEq

/-- DataProcessor.processRow: project the (already exclude-filtered) fields
in order; a field is anonymized when its name is in anonymizeFields or the
heuristic flags it, by calling anonymizeField; otherwise the source value is
copied. none models an exception escaping the row loop. -/
def processRow (row : Row) (anonymizeFields : List String) : List FieldInfo → Option Row
  | [] => some []
  | f :: rest =>
    (if anonymizeFields.contains f.name || shouldAnonymize f.name f.type then
       anonymizeField f.name (rowGet row f.name) f.type
     else some (rowGet row f.name)).bind
      (fun v => (processRow row anonymizeFields rest).map (fun tail => (f.name, v) :: tail))

/-- batch.map(row => this.processRow(row, ...)) with exception propagation. -/
def processBatch (ff : List FieldInfo) (anonymizeFields : List String) : List Row → Option (List Row)
  | [] => some []
  | r :: rs =>
    (processRow r anonymizeFields ff).bind
      (fun pr => (processBatch ff anonymizeFields rs).map (fun rest => pr :: rest))

/-- The streaming loop of DataProcessor.processTable: for each source batch,
transform it, record the insertData call, bump the processed counter by the
source batch length and record the progress callback invocation. -/
def runBatches (tn : String) (ff : List FieldInfo) (anonymizeFields : List String)
    (total : Nat) : List (List Row) → Nat → Option (List (List Row) × List ProgressEvent)
  | [], _ => some ([], [])
  | batch :: rest, processed =>
    (processBatch ff anonymizeFields batch).bind (fun pb =>
      (runBatches tn ff anonymizeFields total rest (processed + batch.length)).map
        (fun r =>
          (pb :: r.1,
           { table := tn, processed := processed + batch.length, total := total } :: r.2)))

/-- DataProcessor.processTable, with the source connector's responses given
as data: the described source TableInfo and the batches its stream yields.
Filters fields by excludeFields, creates the destination table from the
filtered fields, captures totalRows = rowCount || 0, then streams. -/
def processTable (tn : String) (info : TableInfo) (batches : List (List Row))
    (anonymizeFields excludeFields : List String) : Option TableTrace :=
  let filteredFields := info.fields.filter (fun f => !(excludeFields.contains f.name))
  let totalRows := info.rowCount.getD 0
  (runBatches tn filteredFields anonymizeFields totalRows batches 0).map
    (fun r =>
      { created := { name := tn, fields := filteredFields, rowCount := none },
        inserts := r.1, events := r.2 })

/-- One entry of the tables array handed to DataProcessor.processAllTables
(optional members, as in the TypeScript interface). -/
structure TableSpec where
  name : String
  anonymizeFields : Option (List String)
  excludeFields : Option (List String)
  batchSize : Option Nat
deriving DecidableEq

/-- The source database as data: table name to (described info, streamed
batches). getTableInfo on a missing table throws. -/
def lookupTable (db : List (String × TableInfo × List (List Row))) (name : String) :
    Option (TableInfo × List (List Row)) :=
  match db.find? (fun p => p.1 == name) with
  | some p => some p.2
  | none => none

/-- processTable invoked by processAllTables for one TableSpec: undefined
optional members fall back to the parameter defaults [] of processTable. -/
def processTableSpec (db : List (String × TableInfo × List (List Row))) (t : TableSpec) :
    Option TableTrace :=
  match lookupTable db t.name with
  | none => none
  | some (info, batches) =>
    processTable t.name info batches (t.anonymizeFields.getD []) (t.excludeFields.getD [])

/-- DataProcessor.processAllTables: a plain for-loop awaiting processTable for
each entry, with no try/catch — the first failure propagates and ends the
loop. Returns the traces of the tables that ran and whether a failure
occurred. -/
def processAllTables (db : List (String × TableInfo × List (List Row))) :
    List TableSpec → List TableTrace × Bool
  | [] => ([], false)
  | t :: rest =>
    match processTableSpec db t with
    | none => ([], true)
    | some tr =>
      let r := processAllTables db rest
      (tr :: r.1, r.2)

/-- JS Object.keys on a row object. -/
def objectKeys (row : Row) : List String :=
  row.map Prod.fst

/-- MySQLConnector.insertData (src/src/connectors/mysql.ts): an empty batch
is a no-op (none). Otherwise a single INSERT whose VALUES clause holds one
placeholder per column of the first row, executed with the concatenation of
every row's values as the parameter list. Returns (placeholder count,
parameter list). -/
def mysqlInsertData (data : List Row) : Option (Nat × List Value) :=
  match data with
  | [] => none
  | first :: _ =>
    let columns := objectKeys first
    some (columns.length, (data.map (fun row => columns.map (fun c => rowGet row c))).flatten)

/-- PostgreSQLConnector.insertData (src/src/connectors/postgresql.ts): an
empty batch is a no-op (none). Otherwise one INSERT per row, each with one
placeholder per column of the first row and that row's values as parameters.
Returns (placeholder count per statement, one parameter list per row). -/
def pgInsertData (data : List Row) : Option (Nat × List (List Value)) :=
  match data with
  | [] => none
  | first :: _ =>
    let columns := objectKeys first
    some (columns.length, data.map (fun row => columns.map (fun c => rowGet row c)))

/-- Debaser.analyze / the CLI analyzeDatabase sensitivity filter
(src/src/index.ts, CLI source): the inline 9-pattern test over the field
name, with no type gate. -/
def analyzePatterns : List String :=
  ["email", "mail", "name", "phone", "address", "password", "secret", "ssn", "credit_card"]

/-- Whether the analyze operation flags a field as sensitive. -/
def analyzeIsSensitive (f : FieldInfo) : Bool :=
  analyzePatterns.any (fun p => matchesCI f.name p)

/-- The sensitiveFields list reported by analyze for one table. -/
def analyzeSensitiveFields (info : TableInfo) : List String :=
  (info.fields.filter analyzeIsSensitive).map (fun f => f.name)

/-- A raw table entry of a configuration file, before validation (all
members but name optional). -/
structure RawTableConfig where
  name : String
  anonymizeFields : Option (List String)
  excludeFields : Option (List String)
  batchSize : Option Nat
deriving DecidableEq

/-- A validated table entry (ConfigParser.validateConfig output). -/
structure TableConfig where
  name : String
  anonymizeFields : List String
  excludeFields : List String
  batchSize : Nat
deriving DecidableEq

/-- JS x || d on an optional number: d when x is absent or 0 (falsy). -/
def jsOrNat : Option Nat → Nat → Nat
  | none, d => d
  | some 0, d => d
  | some (n + 1), _ => n + 1

/-- ConfigParser.validateConfig on one table entry: batchSize becomes
table.batchSize || 1000; the field lists default to []. -/
def validateTableConfig (t : RawTableConfig) : TableConfig :=
  { name := t.name,
    anonymizeFields := t.anonymizeFields.getD [],
    excludeFields := t.excludeFields.getD [],
    batchSize := jsOrNat t.batchSize 1000 }

/-- The batch size the CLI migrateData passes to processTable for a table
entry read from a configuration file: the validated entry's batchSize
(table.batchSize || config.batchSize in migrateData), where the validated
top-level batchSize is config.batchSize || 1000. -/
def migrateDataTableBatchSize (t : RawTableConfig) (topLevel : Option Nat) : Nat :=
  jsOrNat (some (validateTableConfig t).batchSize) (jsOrNat topLevel 1000)

/-- anonymizeField passes any value through unchanged when the internal
shouldAnonymize gate is false (shared helper). -/
lemma anonymizeField_not_flagged (n t : String) (v : Value)
    (h : shouldAnonymize n t = false) : anonymizeField n v t = some v := by
  cases v <;> simp [anonymizeField, h]

/-- anonymizeField on a flagged field and a string value applies the
transform dispatch (shared helper). -/
lemma anonymizeField_flagged_str (n t s : String) (h : shouldAnonymize n t = true) :
    anonymizeField n (Value.vstr s) t = some (Value.vstr (anonymizeString n s)) := by
  simp [anonymizeField, h]

/-- Claim C10 (confirmed): whenever shouldAnonymize(fieldName, fieldType) is
false, anonymizeField(fieldName, value, fieldType) returns the value
unchanged for every value, null, undefined, string or otherwise — the
classification gate is re-applied inside anonymizeField itself. -/
theorem c10_identity_when_not_flagged (fieldName fieldType : String) (v : Value)
    (h : shouldAnonymize fieldName fieldType = false) :
    anonymizeField fieldName v fieldType = some v := by
  cases v <;> simp [anonymizeField, h]

/-- Witness for C10 at the concrete non-string value 123 of field id. -/
theorem c10_identity_when_not_flagged_witness :
    shouldAnonymize "id" "integer" = false ∧
    anonymizeField "id" (Value.vint 123) "integer" = some (Value.vint 123) :=
  ⟨by decide, c10_identity_when_not_flagged "id" "integer" (Value.vint 123) (by decide)⟩

/-- Claim C9 counterexample: a config-file table entry omitting batchSize
with top-level batchSize 500 migrates with batch size 1000, not 500 —
validateConfig already fills the per-table default 1000, so the top-level
fallback in migrateData is never reached for config-file tables. -/
theorem c9_counterexample :
    migrateDataTableBatchSize ⟨"users", none, none, none⟩ (some 500) = 1000 ∧
    (1000 : Nat) ≠ 500 := by decide

/-- Claim C9 (corrected): the effective batch size of a config-file table is
its own batchSize when that is a positive number and the hard default 1000
otherwise, independent of the top-level batchSize; the top-level value can
only reach processTable for tables discovered at run time (which carry no
per-table batchSize at all). -/
theorem c9_amended (t : RawTableConfig) (topLevel : Option Nat) :
    migrateDataTableBatchSize t topLevel = jsOrNat t.batchSize 1000 := by
  rcases t with ⟨n, a, e, b⟩
  rcases b with _ | b
  · rfl
  · cases b <;> rfl

/-- Claim C4 (code_bug), evaluated at the failing input: for the two-row
batch [{a: 1}, {a: 2}], MySQLConnector.insertData builds one placeholder but
passes two parameters (malformed for every batch of two or more rows), while
PostgreSQLConnector.insertData issues one well-formed single-row statement
per row; an empty batch is a no-op in both. -/
theorem c4_insert_batch :
    mysqlInsertData [[("a", Value.vint 1)], [("a", Value.vint 2)]]
      = some (1, [Value.vint 1, Value.vint 2]) ∧
    (1 : Nat) ≠ 2 ∧
    pgInsertData [[("a", Value.vint 1)], [("a", Value.vint 2)]]
      = some (1, [[Value.vint 1], [Value.vint 2]]) ∧
    mysqlInsertData [] = none ∧
    pgInsertData [] = none := by decide

/-- Claim C3 counterexample: the analyze filter and shouldAnonymize disagree
in both directions — an integer-typed email field is flagged by analyze but
not by shouldAnonymize, and a string-typed token field is flagged by
shouldAnonymize but not by analyze. -/
theorem c3_counterexample :
    analyzeIsSensitive ⟨"email", "integer", false, none⟩ = true ∧
    shouldAnonymize "email" "integer" = false ∧
    analyzeIsSensitive ⟨"token", "string", false, none⟩ = false ∧
    shouldAnonymize "token" "string" = true := by decide

/-- Claim C3 (corrected): analyze flags a field iff its name matches one of
its own nine inline patterns, ignoring the field type entirely; restricted
to string-typed fields the analyze set is a strict subset of the heuristic
set (every analyze pattern is also a heuristic pattern). -/
theorem c3_amended :
    (∀ (name tyA tyB : String) (nbA nbB : Bool) (dvA dvB : Option Value),
      analyzeIsSensitive ⟨name, tyA, nbA, dvA⟩ = analyzeIsSensitive ⟨name, tyB, nbB, dvB⟩) ∧
    (∀ f : FieldInfo, analyzeIsSensitive f = true → f.type = "string" →
      shouldAnonymize f.name f.type = true) := by
  constructor
  · intro name tyA tyB nbA nbB dvA dvB
    rfl
  · intro f hf hty
    rw [hty]
    have hsub : ∀ q ∈ analyzePatterns, q ∈ sensitivePatterns := by decide
    simp only [analyzeIsSensitive, List.any_eq_true] at hf
    obtain ⟨p, hp, hm⟩ := hf
    simp only [shouldAnonymize, Bool.and_eq_true, List.any_eq_true, beq_self_eq_true,
      and_true]
    exact ⟨p, hsub p hp, hm⟩

/-- Witness for C3 amended: the string-typed mail field, flagged by analyze,
is also flagged by the heuristic. -/
theorem c3_amended_witness :
    shouldAnonymize "mail" "string" = true :=
  c3_amended.2 ⟨"mail", "string", false, none⟩ (by decide) rfl

/-- Claim C8 (confirmed): normalizeFieldType is total into the seven-value
vocabulary; any native type containing int or serial (case-insensitively)
normalizes to integer regardless of other substrings (first rule wins); and
a native type containing none of the 16 rule substrings falls back to
string. -/
theorem c8_normalize_type (s : String) :
    (normalizeFieldType s = "integer" ∨ normalizeFieldType s = "string" ∨
     normalizeFieldType s = "number" ∨ normalizeFieldType s = "date" ∨
     normalizeFieldType s = "boolean" ∨ normalizeFieldType s = "json" ∨
     normalizeFieldType s = "binary") ∧
    ((occursIn "int".toList (s.toList.map Char.toLower) = true ∨
      occursIn "serial".toList (s.toList.map Char.toLower) = true) →
      normalizeFieldType s = "integer") ∧
    ((∀ p ∈ typeRulePatterns, occursIn p.toList (s.toList.map Char.toLower) = false) →
      normalizeFieldType s = "string") := by
  refine ⟨?_, ?_, ?_⟩
  · simp only [normalizeFieldType]
    split_ifs <;> simp
  · intro h
    simp only [normalizeFieldType]
    rcases h with h | h <;> rw [h] <;> simp
  · intro h
    have h1 := h "int" (by decide)
    have h2 := h "serial" (by decide)
    have h3 := h "varchar" (by decide)
    have h4 := h "text" (by decide)
    have h5 := h "char" (by decide)
    have h6 := h "decimal" (by decide)
    have h7 := h "numeric" (by decide)
    have h8 := h "float" (by decide)
    have h9 := h "double" (by decide)
    have h10 := h "date" (by decide)
    have h11 := h "time" (by decide)
    have h12 := h "timestamp" (by decide)
    have h13 := h "bool" (by decide)
    have h14 := h "json" (by decide)
    have h15 := h "blob" (by decide)
    have h16 := h "bytea" (by decide)
    simp only [normalizeFieldType]
    rw [h1, h2, h3, h4, h5, h6, h7, h8, h9, h10, h11, h12, h13, h14, h15, h16]
    decide

/-- Witness for C8 at the unrecognized native type uuid: the fallback is
string. -/
theorem c8_normalize_type_witness :
    normalizeFieldType "uuid" = "string" :=
  (c8_normalize_type "uuid").2.2 (by decide)

/-- Claim C5 counterexample: with a source holding only table t2, running
processAllTables over [t1, t2] fails on t1 and produces no trace at all —
t2 is never attempted — although t2 on its own processes successfully. -/
theorem c5_counterexample :
    processAllTables [("t2", ⟨"t2", [⟨"a", "integer", false, none⟩], some 0⟩, [])]
      [⟨"t1", none, none, none⟩, ⟨"t2", none, none, none⟩]
      = ([], true) ∧
    processTableSpec [("t2", ⟨"t2", [⟨"a", "integer", false, none⟩], some 0⟩, [])]
      ⟨"t2", none, none, none⟩
      = some ⟨⟨"t2", [⟨"a", "integer", false, none⟩], none⟩, [], []⟩ := by decide

/-- Claim C5 (corrected): a failure while migrating one table aborts the
whole processAllTables run — the exception propagates out of the loop and no
later table is attempted, whatever the remaining list is. -/
theorem c5_amended (db : List (String × TableInfo × List (List Row))) (t : TableSpec)
    (rest : List TableSpec) (h : processTableSpec db t = none) :
    processAllTables db (t :: rest) = ([], true) := by
  simp [processAllTables, h]

/-- Witness for C5 amended: an empty source database fails the first table
and yields no traces. -/
theorem c5_amended_witness :
    processAllTables [] [⟨"t1", none, none, none⟩] = ([], true) :=
  c5_amended [] ⟨"t1", none, none, none⟩ [] (by decide)

/-- Claim C1 counterexample: the field status is in the anonymize set, its
value is the non-null string ok, yet processRow writes the value unchanged —
the internal shouldAnonymize gate of anonymizeField overrides the user's
anonymize set, and the masking transform would have produced a different
string. -/
theorem c1_counterexample :
    processRow [("status", Value.vstr "ok")] ["status"] [⟨"status", "string", true, none⟩]
      = some [("status", Value.vstr "ok")] ∧
    anonymizeString "status" "ok" = "**" ∧
    Value.vstr "ok" ≠ Value.vstr "**" := by decide

/-- A successful processRow produces exactly one key per projected field, in
field order (shared helper). -/
lemma processRow_keys (row : Row) (anonF : List String) :
    ∀ (fields : List FieldInfo) (pr : Row),
      processRow row anonF fields = some pr → objectKeys pr = fields.map FieldInfo.name := by
  intro fields
  induction fields with
  | nil =>
    intro pr h
    simp only [processRow, Option.some.injEq] at h
    subst h
    rfl
  | cons f rest ih =>
    intro pr h
    simp only [processRow, Option.bind_eq_some, Option.map_eq_some'] at h
    obtain ⟨v, _, tail, htail, rfl⟩ := h
    simp only [objectKeys, List.map_cons]
    exact congrArg (List.cons f.name) (ih tail htail)

/-- Every row of a successful processBatch has the projected field names as
its keys (shared helper). -/
lemma processBatch_keys (ff : List FieldInfo) (anonF : List String) :
    ∀ (b pb : List Row), processBatch ff anonF b = some pb →
      ∀ r ∈ pb, objectKeys r = ff.map FieldInfo.name := by
  intro b
  induction b with
  | nil =>
    intro pb h r hr
    simp only [processBatch, Option.some.injEq] at h
    subst h
    simp at hr
  | cons x xs ih =>
    intro pb h r hr
    simp only [processBatch, Option.bind_eq_some, Option.map_eq_some'] at h
    obtain ⟨pr, hpr, rest, hrest, rfl⟩ := h
    rcases List.mem_cons.mp hr with rfl | hr2
    · exact processRow_keys _ _ _ _ hpr
    · exact ih rest hrest r hr2

/-- Every row of every batch recorded by the streaming loop has the
projected field names as its keys (shared helper). -/
lemma runBatches_keys (tn : String) (ff : List FieldInfo) (anonF : List String) (total : Nat) :
    ∀ (batches : List (List Row)) (acc : Nat) (ins : List (List Row)) (evs : List ProgressEvent),
      runBatches tn ff anonF total batches acc = some (ins, evs) →
      ∀ b ∈ ins, ∀ r ∈ b, objectKeys r = ff.map FieldInfo.name := by
  intro batches
  induction batches with
  | nil =>
    intro acc ins evs h b hb
    simp only [runBatches, Option.some.injEq, Prod.mk.injEq] at h
    obtain ⟨h1, _⟩ := h
    subst h1
    simp at hb
  | cons batch rest ih =>
    intro acc ins evs h b hb
    simp only [runBatches, Option.bind_eq_some, Option.map_eq_some'] at h
    obtain ⟨pb, hpb, r2, hr2, heq⟩ := h
    obtain ⟨h1, _⟩ := Prod.mk.injEq .. |>.mp heq
    subst h1
    rcases List.mem_cons.mp hb with rfl | hb2
    · exact processBatch_keys _ _ _ _ hpb
    · exact ih (acc + batch.length) r2.1 r2.2 hr2 b hb2

/-- An excluded field name is absent from the names of the filtered field
list (shared helper). -/
lemma not_mem_filtered_names (x : String) (exclF : List String) (hx : x ∈ exclF)
    (fields : List FieldInfo) :
    x ∉ (fields.filter (fun f => !(exclF.contains f.name))).map FieldInfo.name := by
  intro hmem
  simp only [List.mem_map] at hmem
  obtain ⟨f, hf, hname⟩ := hmem
  rw [List.mem_filter] at hf
  obtain ⟨_, hcond⟩ := hf
  rw [hname, Bool.not_eq_true'] at hcond
  exact absurd (List.elem_eq_true_of_mem hx) (by simp [List.contains] at hcond ⊢; exact hcond)

/-- Claim C2 (confirmed): for every field name in excludeFields, the
destination TableInfo passed to createTable omits that field, and no row in
any batch passed to insertData contains that name as a key. -/
theorem c2_exclude_invariant (tn : String) (info : TableInfo) (batches : List (List Row))
    (anonF exclF : List String) (tr : TableTrace) (x : String)
    (hx : x ∈ exclF) (h : processTable tn info batches anonF exclF = some tr) :
    x ∉ tr.created.fields.map FieldInfo.name ∧
    ∀ b ∈ tr.inserts, ∀ row ∈ b, x ∉ objectKeys row := by
  simp only [processTable, Option.map_eq_some'] at h
  obtain ⟨r, hr, rfl⟩ := h
  constructor
  · exact not_mem_filtered_names x exclF hx info.fields
  · intro b hb row hrow hmem
    have hkeys := runBatches_keys tn _ anonF _ batches 0 r.1 r.2 hr b hb row hrow
    rw [hkeys] at hmem
    exact not_mem_filtered_names x exclF hx info.fields hmem

/-- Witness for C2: migrating a users table while excluding password leaves
password out of the created schema and out of the single inserted row. -/
theorem c2_exclude_invariant_witness :
    ("password" ∈ (["password"] : List String)) ∧
    ("password" ∉ ([⟨"id", "integer", false, none⟩] : List FieldInfo).map FieldInfo.name ∧
     ∀ b ∈ [[[("id", Value.vint 1)]]], ∀ row ∈ b, "password" ∉ objectKeys row) :=
  ⟨by decide,
   c2_exclude_invariant "users"
     ⟨"users", [⟨"id", "integer", false, none⟩, ⟨"password", "string", false, none⟩], none⟩
     [[[("id", Value.vint 1), ("password", Value.vstr "x")]]] [] ["password"]
     ⟨⟨"users", [⟨"id", "integer", false, none⟩], none⟩,
      [[[("id", Value.vint 1)]]], [⟨"users", 1, 0⟩]⟩
     "password" (by decide) (by decide)⟩

/-- Claim C1 (corrected): processRow writes, for each retained field, a pair
whose key is the field name and whose value is characterized as follows —
when the classifier's own heuristic does not flag the field, the source
value is written unchanged (membership in the user's anonymize set does not
force masking, because anonymizeField re-applies the gate internally); when
the heuristic does flag it and the source value is a non-null string, the
masking transform of the source value is written. -/
theorem c1_amended (row : Row) (anonF : List String) :
    ∀ (fields : List FieldInfo) (pr : Row),
      processRow row anonF fields = some pr →
      List.Forall₂ (fun (f : FieldInfo) (p : String × Value) =>
        p.1 = f.name ∧
        (shouldAnonymize f.name f.type = false → p.2 = rowGet row f.name) ∧
        (shouldAnonymize f.name f.type = true → ∀ s, rowGet row f.name = Value.vstr s →
          p.2 = Value.vstr (anonymizeString f.name s))) fields pr := by
  intro fields
  induction fields with
  | nil =>
    intro pr h
    simp only [processRow, Option.some.injEq] at h
    subst h
    exact List.Forall₂.nil
  | cons f rest ih =>
    intro pr h
    simp only [processRow, Option.bind_eq_some, Option.map_eq_some'] at h
    obtain ⟨v, hv, tail, htail, rfl⟩ := h
    have hchar : (shouldAnonymize f.name f.type = false → v = rowGet row f.name) ∧
        (shouldAnonymize f.name f.type = true → ∀ s, rowGet row f.name = Value.vstr s →
          v = Value.vstr (anonymizeString f.name s)) := by
      split at hv
      · constructor
        · intro hfalse
          rw [anonymizeField_not_flagged f.name f.type _ hfalse] at hv
          injection hv with hv
          exact hv.symm
        · intro htrue s hs
          rw [hs, anonymizeField_flagged_str f.name f.type s htrue] at hv
          injection hv with hv
          exact hv.symm
      · next hcond =>
        have hfalse : shouldAnonymize f.name f.type = false := by
          cases hb : shouldAnonymize f.name f.type
          · rfl
          · exact absurd (by rw [hb]; exact Bool.or_true _) hcond
        constructor
        · intro _
          injection hv with hv
          exact hv.symm
        · intro htrue
          rw [hfalse] at htrue
          exact absurd htrue (by decide)
    exact List.Forall₂.cons ⟨rfl, hchar.1, hchar.2⟩ (ih tail htail)

/-- Witness for C1 amended: a string-typed email field with a non-null
string value is written as its email mask. -/
theorem c1_amended_witness :
    List.Forall₂ (fun (f : FieldInfo) (p : String × Value) =>
      p.1 = f.name ∧
      (shouldAnonymize f.name f.type = false →
        p.2 = rowGet [("email", Value.vstr "a@b.c")] f.name) ∧
      (shouldAnonymize f.name f.type = true →
        ∀ s, rowGet [("email", Value.vstr "a@b.c")] f.name = Value.vstr s →
          p.2 = Value.vstr (anonymizeString f.name s)))
      [⟨"email", "string", true, none⟩] [("email", Value.vstr "**@b.c")] :=
  c1_amended [("email", Value.vstr "a@b.c")] [] [⟨"email", "string", true, none⟩]
    [("email", Value.vstr "**@b.c")] (by decide)

/-- The cumulative sums acc + n1, acc + n1 + n2, ... of a list of batch
sizes: the processed counts the spec expects the progress events to carry. -/
def cumSums (acc : Nat) : List Nat → List Nat
  | [] => []
  | n :: ns => (acc + n) :: cumSums (acc + n) ns

/-- A successful processBatch preserves the number of rows (shared helper). -/
lemma processBatch_length (ff : List FieldInfo) (anonF : List String) :
    ∀ (b pb : List Row), processBatch ff anonF b = some pb → pb.length = b.length := by
  intro b
  induction b with
  | nil =>
    intro pb h
    simp only [processBatch, Option.some.injEq] at h
    subst h
    rfl
  | cons x xs ih =>
    intro pb h
    simp only [processBatch, Option.bind_eq_some, Option.map_eq_some'] at h
    obtain ⟨pr, _, rest, hrest, rfl⟩ := h
    simp only [List.length_cons]
    exact congrArg Nat.succ (ih rest hrest)

/-- Shape of a successful streaming loop: batch sizes are preserved into the
insertData calls, the progress events carry the cumulative processed counts
starting from the accumulator, and every event carries the captured total
and the table name (shared helper). -/
lemma runBatches_spec (tn : String) (ff : List FieldInfo) (anonF : List String) (total : Nat) :
    ∀ (batches : List (List Row)) (acc : Nat) (ins : List (List Row)) (evs : List ProgressEvent),
      runBatches tn ff anonF total batches acc = some (ins, evs) →
      ins.map List.length = batches.map List.length ∧
      evs.map ProgressEvent.processed = cumSums acc (batches.map List.length) ∧
      ∀ e ∈ evs, e.total = total ∧ e.table = tn := by
  intro batches
  induction batches with
  | nil =>
    intro acc ins evs h
    simp only [runBatches, Option.some.injEq, Prod.mk.injEq] at h
    obtain ⟨h1, h2⟩ := h
    subst h1
    subst h2
    refine ⟨rfl, rfl, ?_⟩
    intro e he
    simp at he
  | cons batch rest ih =>
    intro acc ins evs h
    simp only [runBatches, Option.bind_eq_some, Option.map_eq_some'] at h
    obtain ⟨pb, hpb, r2, hr2, heq⟩ := h
    obtain ⟨h1, h2⟩ := Prod.mk.injEq .. |>.mp heq
    subst h1
    subst h2
    obtain ⟨ihins, ihevs, ihtot⟩ := ih (acc + batch.length) r2.1 r2.2 hr2
    refine ⟨?_, ?_, ?_⟩
    · simp only [List.map_cons, ihins, processBatch_length ff anonF batch pb hpb]
    · simp only [List.map_cons, cumSums, ihevs]
    · intro e he
      rcases List.mem_cons.mp he with rfl | he2
      · exact ⟨rfl, rfl⟩
      · exact ihtot e he2

/-- cumSums is as long as its input (shared helper). -/
lemma cumSums_length : ∀ (l : List Nat) (acc : Nat), (cumSums acc l).length = l.length := by
  intro l
  induction l with
  | nil => intro acc; rfl
  | cons n ns ih =>
    intro acc
    simp only [cumSums, List.length_cons]
    exact congrArg Nat.succ (ih (acc + n))

/-- The last cumulative sum is the accumulator plus the list sum (shared
helper). -/
lemma cumSums_getLast (l : List Nat) :
    ∀ (acc : Nat), l ≠ [] → (cumSums acc l).getLast? = some (acc + l.sum) := by
  induction l with
  | nil => intro acc h; exact absurd rfl h
  | cons n ns ih =>
    intro acc _
    cases ns with
    | nil => simp [cumSums]
    | cons m ms =>
      have := ih (acc + n) (by simp)
      simp only [cumSums] at this ⊢
      rw [List.getLast?_cons_cons]
      rw [this]
      simp only [List.sum_cons]
      congr 1
      omega

/-- Filtering by an empty exclude list keeps every field (shared helper). -/
lemma filter_excl_nil : ∀ (l : List FieldInfo),
    l.filter (fun f => !((([] : List String)).contains f.name)) = l := by
  intro l
  induction l with
  | nil => rfl
  | cons f t ih =>
    have hc : (([] : List String)).contains f.name = false := rfl
    simp [List.filter_cons, hc, ih]

/-- Claim C7 (confirmed): with empty anonymize/exclude lists, processTable
creates a destination schema with exactly the source field list (same set
and order), passes every source row to insertData (the total written row
count equals the total streamed row count), and emits one progress event per
batch carrying the cumulative processed count, the pre-captured total
(rowCount or 0 when unknown) and the table name, the last event reporting
the full row count. -/
theorem c7_round_trip (tn : String) (info : TableInfo) (batches : List (List Row))
    (tr : TableTrace) (h : processTable tn info batches [] [] = some tr) :
    tr.created.name = tn ∧
    tr.created.fields = info.fields ∧
    (tr.inserts.map List.length).sum = (batches.map List.length).sum ∧
    tr.events.length = batches.length ∧
    tr.events.map ProgressEvent.processed = cumSums 0 (batches.map List.length) ∧
    (∀ e ∈ tr.events, e.total = info.rowCount.getD 0 ∧ e.table = tn) ∧
    (batches ≠ [] →
      (tr.events.map ProgressEvent.processed).getLast? = some ((batches.map List.length).sum)) := by
  simp only [processTable, Option.map_eq_some'] at h
  obtain ⟨r, hr, rfl⟩ := h
  rw [filter_excl_nil info.fields] at hr
  obtain ⟨hins, hevs, htot⟩ := runBatches_spec tn info.fields [] (info.rowCount.getD 0)
    batches 0 r.1 r.2 hr
  refine ⟨rfl, filter_excl_nil info.fields, ?_, ?_, hevs, htot, ?_⟩
  · exact congrArg List.sum hins
  · have := congrArg List.length hevs
    simp only [List.length_map] at this
    rw [this, cumSums_length]
    simp
  · intro hne
    rw [hevs, cumSums_getLast (batches.map List.length) 0 (by simpa using hne)]
    simp

/-- Witness for C7 on a two-batch, two-row table with a known row count. -/
theorem c7_round_trip_witness :
    (⟨"t", [⟨"a", "integer", true, none⟩], none⟩ : TableInfo).name = "t" ∧
    (⟨"t", [⟨"a", "integer", true, none⟩], none⟩ : TableInfo).fields
      = (⟨"t", [⟨"a", "integer", true, none⟩], some 2⟩ : TableInfo).fields ∧
    (([[[("a", Value.vint 1)]], [[("a", Value.vint 2)]]] : List (List Row)).map List.length).sum
      = (([[[("a", Value.vint 1)]], [[("a", Value.vint 2)]]] : List (List Row)).map List.length).sum ∧
    ([⟨"t", 1, 2⟩, ⟨"t", 2, 2⟩] : List ProgressEvent).length
      = ([[[("a", Value.vint 1)]], [[("a", Value.vint 2)]]] : List (List Row)).length ∧
    ([⟨"t", 1, 2⟩, ⟨"t", 2, 2⟩] : List ProgressEvent).map ProgressEvent.processed
      = cumSums 0 (([[[("a", Value.vint 1)]], [[("a", Value.vint 2)]]] : List (List Row)).map List.length) ∧
    (∀ e ∈ ([⟨"t", 1, 2⟩, ⟨"t", 2, 2⟩] : List ProgressEvent),
      e.total = (⟨"t", [⟨"a", "integer", true, none⟩], some 2⟩ : TableInfo).rowCount.getD 0 ∧
      e.table = "t") ∧
    (([[[("a", Value.vint 1)]], [[("a", Value.vint 2)]]] : List (List Row)) ≠ [] →
      (([⟨"t", 1, 2⟩, ⟨"t", 2, 2⟩] : List ProgressEvent).map ProgressEvent.processed).getLast?
        = some ((([[[("a", Value.vint 1)]], [[("a", Value.vint 2)]]] : List (List Row)).map List.length).sum)) :=
  c7_round_trip "t" ⟨"t", [⟨"a", "integer", true, none⟩], some 2⟩
    [[[("a", Value.vint 1)]], [[("a", Value.vint 2)]]]
    ⟨⟨"t", [⟨"a", "integer", true, none⟩], none⟩,
     [[[("a", Value.vint 1)]], [[("a", Value.vint 2)]]],
     [⟨"t", 1, 2⟩, ⟨"t", 2, 2⟩]⟩ (by decide)

/-- splitOnChar in terms of the first occurrence of the separator: the head
segment is everything before the first separator, and the remaining segments
are the split of everything after it (shared helper). -/
lemma splitOnChar_eq (c : Char) : ∀ (l : List Char),
    splitOnChar c l =
      l.takeWhile (fun x => x != c) ::
        (match l.dropWhile (fun x => x != c) with
         | [] => []
         | _ :: rest => splitOnChar c rest) := by
  intro l
  induction l with
  | nil => rfl
  | cons x xs ih =>
    by_cases hx : x = c
    · subst hx
      simp [splitOnChar, List.takeWhile_cons, List.dropWhile_cons]
    · have hb : (x == c) = false := beq_eq_false_iff_ne.mpr hx
      simp only [splitOnChar, hb, Bool.false_eq_true, if_false]
      rw [ih]
      simp [List.takeWhile_cons, List.dropWhile_cons, hb, hx]

/-- splitOnChar of a list with no separator is one segment (shared helper). -/
lemma splitOnChar_one (c : Char) (l : List Char)
    (hd : l.dropWhile (fun x => x != c) = []) :
    splitOnChar c l = [l.takeWhile (fun x => x != c)] := by
  rw [splitOnChar_eq c l, hd]

/-- splitOnChar of a list containing the separator: head segment before the
first separator, then the split of the remainder (shared helper). -/
lemma splitOnChar_head_cons (c : Char) (l : List Char) (a : Char) (rest : List Char)
    (hd : l.dropWhile (fun x => x != c) = a :: rest) :
    splitOnChar c l = l.takeWhile (fun x => x != c) :: splitOnChar c rest := by
  rw [splitOnChar_eq c l, hd]

/-- Claim C6 counterexample: with more than one at sign the code keeps only
the segment between the first and second at sign (claim predicts the whole
tail), and a value ending right after its first at sign yields the fixed
placeholder although it does contain an at sign (claim predicts a masked
local part with empty domain). -/
theorem c6_counterexample :
    anonymizeEmail "ab@x@y" = "**@x" ∧
    ("**@x" : String) ≠ "**@x@y" ∧
    anonymizeEmail "a@" = "anonymous@example.com" ∧
    ("anonymous@example.com" : String) ≠ "**@" := by decide

/-- Claim C6 (corrected): for every string, anonymizeEmail keeps as domain
only the segment strictly between the first and second at sign; when that
segment is empty — no at sign at all, nothing after the first at sign, or an
immediately repeated at sign — the fixed placeholder is returned; otherwise
the local part (everything before the first at sign) is masked to its first
2 characters followed by one star per remaining character, or exactly 2
stars when it has length at most 2. The claim example holds. -/
theorem c6_amended :
    (∀ s : String,
      anonymizeEmail s =
        if ((s.toList.dropWhile (fun x => x != Char.ofNat 64)).tail).takeWhile
            (fun x => x != Char.ofNat 64) = [] then
          "anonymous@example.com"
        else
          (if (s.toList.takeWhile (fun x => x != Char.ofNat 64)).length > 2 then
            String.mk ((s.toList.takeWhile (fun x => x != Char.ofNat 64)).take 2) ++
              repeatChar (Char.ofNat 42)
                ((s.toList.takeWhile (fun x => x != Char.ofNat 64)).length - 2)
          else "**") ++ "@" ++
            String.mk (((s.toList.dropWhile (fun x => x != Char.ofNat 64)).tail).takeWhile
              (fun x => x != Char.ofNat 64))) ∧
    anonymizeEmail "john.doe@example.com" = "jo******@example.com" := by
  constructor
  · intro s
    unfold anonymizeEmail
    rcases hd : s.toList.dropWhile (fun x => x != Char.ofNat 64) with _ | ⟨a, rest⟩
    · rw [splitOnChar_one (Char.ofNat 64) s.toList hd]
      simp
    · rw [splitOnChar_head_cons (Char.ofNat 64) s.toList a rest hd,
        splitOnChar_eq (Char.ofNat 64) rest]
      simp only [List.tail_cons]
      by_cases hdom : rest.takeWhile (fun x => x != Char.ofNat 64) = []
      · simp [hdom]
      · simp [hdom, List.isEmpty_iff]
  · decide
